import Mathlib

/-!
Verification of the GeneTicker codon-frequency core against its design spec.

The embedding follows `GeneTicker/core.py`. The third-party GenBank parser is
abstracted (per the spec it is an external collaborator): its output is either
`none` (the parse raised: file missing or malformed source) or `some records`,
where each record carries its features and each feature carries the string its
extraction operation would return. Floating-point frequencies are modelled as
exact rationals.
-/

namespace GeneTicker

/-- The set of valid, unambiguous DNA bases (`VALID_BASES = set("ATCG")`). -/
def VALID_BASES : List Char := ['A', 'T', 'C', 'G']

/-- Default minimum frequency to include a codon in the final report
(`DEFAULT_MIN_FREQ = 0.05`), as an exact rational. -/
def DEFAULT_MIN_FREQ : ℚ := 5 / 100

/-- A feature's qualifier mapping: string key → list of string values. -/
abbrev Qualifiers := List (String × List String)

/-- A feature of a record, reduced to what the aggregator reads: the type tag,
the qualifier mapping, and the nucleotide sequence that
`feature.extract(record.seq)` returns (extraction is the collaborator's job). -/
structure SeqFeature where
  type : String
  qualifiers : Qualifiers
  extract : String
deriving Repr, DecidableEq

/-- A parsed record, reduced to what the aggregator reads: its features. -/
structure SeqRecord where
  features : List SeqFeature
deriving Repr, DecidableEq

/-- Models `feature.qualifiers.get(key, dflt)` on the qualifier dict. -/
def qualGet (qs : Qualifiers) (key : String) (dflt : List String) : List String :=
  match qs.lookup key with
  | some v => v
  | none => dflt

/-- Models `feature.qualifiers.get(key, dflt)[0]`: `none` models the `IndexError`
raised when the qualifier is present but its value list is empty (such an
exception escapes to the `except` block of the source). -/
def qualGet0 (qs : Qualifiers) (key : String) (dflt : List String) : Option String :=
  (qualGet qs key dflt).head?

/-- Python `str.upper()`, per-character (ASCII data throughout). -/
def pyUpper (s : String) : String := String.mk (s.data.map Char.toUpper)

/-- Python slice `s[a:b]` for `a ≤ b`. -/
def pySlice (s : String) (a b : Nat) : String := String.mk ((s.data.drop a).take (b - a))

/-- Python `s[i]` as a 1-character string (used only with `i < len s`). -/
def pyIndex (s : String) (i : Nat) : String := String.mk ((s.data.drop i).take 1)

/-- The Counter key `(codon, aa_code, special_type)`; `special_type` is one of
`""`, `"START"`, `"STOP"` exactly as in the source. -/
abbrev CodonKey := String × String × String

/-- Models `set(cds_seq_str).issubset(VALID_BASES)` (core.py line 85). -/
def validBasesOnly (s : String) : Prop := ∀ c ∈ s.data, c ∈ VALID_BASES

instance (s : String) : Decidable (validBasesOnly s) :=
  inferInstanceAs (Decidable (∀ c ∈ s.data, c ∈ VALID_BASES))

/-- The codon loop of `calculate_codon_frequency_to_df` (core.py lines 93–123):
the events `(codon, aa_code, special_type)` contributed by a CDS that passed
the skip checks.  `truncated_len = (cds_len // 3) * 3`, and
`for i in range(0, truncated_len, 3)` is walked as `i = 3 * j` with
`j < truncated_len / 3`; the codon is the slice `cds_seq_str[i : i + 3]` and
`aa_index = i // 3 = j`. -/
def codonEvents (cds_seq_str : String) (translation_str : String) : List CodonKey :=
  (List.range (((cds_seq_str.length / 3) * 3) / 3)).map fun j =>
    if j < translation_str.length then
      (pySlice cds_seq_str (3 * j) (3 * j + 3), pyIndex translation_str j,
        if 3 * j = 0 then "START" else "")
    else
      (pySlice cds_seq_str (3 * j) (3 * j + 3), "*", "STOP")

/-- Processing of one feature with `feature.type == "CDS"` (core.py lines
66–123): the skip checks followed by the codon loop.  Returns the contributed
events together with whether the feature was counted in `total_cds_processed`;
`none` models an exception escaping to the `except` block. -/
def processCDS (f : SeqFeature) : Option (List CodonKey × Bool) :=
  match qualGet0 f.qualifiers "locus_tag" ["?"] with
  | none => none
  | some _locus_tag =>
    match qualGet0 f.qualifiers "translation" [""] with
    | none => none
    | some translation_str =>
      if translation_str = "" then some ([], false)
      else if (f.qualifiers.lookup "pseudo").isSome then some ([], false)
      else
        if ¬ validBasesOnly (pyUpper f.extract) then some ([], true)
        else some (codonEvents (pyUpper f.extract) translation_str, true)

/-- The feature-loop body (core.py lines 63–66): non-CDS features contribute
nothing. -/
def processFeature (f : SeqFeature) : Option (List CodonKey × Bool) :=
  if f.type = "CDS" then processCDS f else some ([], false)

/-- Events contributed by a list of features, in order; `none` aborts the whole
aggregation (an exception caught by the `except` block). -/
def featuresEvents : List SeqFeature → Option (List CodonKey)
  | [] => some []
  | f :: fs =>
    (processFeature f).bind fun eb =>
      (featuresEvents fs).bind fun rest => some (eb.1 ++ rest)

/-- Events contributed by all records of the parsed input, in order. -/
def allEvents : List SeqRecord → Option (List CodonKey)
  | [] => some []
  | r :: rs =>
    (featuresEvents r.features).bind fun evs =>
      (allEvents rs).bind fun rest => some (evs ++ rest)

/-- A CDS feature that passes every skip check of core.py lines 66–91: type
`CDS`, a readable nonempty translation, no `pseudo` qualifier, and only
A/T/C/G in its upper-cased sequence. -/
def notSkipped (f : SeqFeature) : Prop :=
  f.type = "CDS" ∧
  (qualGet0 f.qualifiers "translation" [""]).isSome ∧
  qualGet0 f.qualifiers "translation" [""] ≠ some "" ∧
  (f.qualifiers.lookup "pseudo").isSome = false ∧
  validBasesOnly (pyUpper f.extract)

instance (f : SeqFeature) : Decidable (notSkipped f) := by
  unfold notSkipped; infer_instance

/-- The three whole-feature skip defects of core.py lines 70–91: a missing or
empty translation, a `pseudo` qualifier, or non-ATCG bases. -/
def defectiveSkip (f : SeqFeature) : Prop :=
  qualGet0 f.qualifiers "translation" [""] = some "" ∨
  (f.qualifiers.lookup "pseudo").isSome ∨
  ¬ validBasesOnly (pyUpper f.extract)

instance (f : SeqFeature) : Decidable (defectiveSkip f) := by
  unfold defectiveSkip; infer_instance

/-- Every qualifier value list is nonempty (Biopython qualifier values always
hold at least one string; an empty list would make the `[0]` accesses raise). -/
def qualsWellFormed (f : SeqFeature) : Prop := ∀ p ∈ f.qualifiers, p.2 ≠ []

instance (f : SeqFeature) : Decidable (qualsWellFormed f) := by
  unfold qualsWellFormed; infer_instance

/-- Lexicographic `≤` on character lists: Python's string comparison (by code
point). -/
def charListLeB : List Char → List Char → Bool
  | [], _ => true
  | _ :: _, [] => false
  | a :: as, b :: bs =>
    if a < b then true
    else if b < a then false
    else charListLeB as bs

/-- Python `s1 <= s2` on strings. -/
def strLeB (a b : String) : Bool := charListLeB a.data b.data

/-- Python tuple comparison on Counter keys: lexicographic on
`(codon, aa_code, special_type)`, as used by
`sorted(codon_aa_counts.items())`. -/
def keyLeB : CodonKey → CodonKey → Bool
  | (a1, a2, a3), (b1, b2, b3) =>
    if a1 ≠ b1 then strLeB a1 b1
    else if a2 ≠ b2 then strLeB a2 b2
    else strLeB a3 b3

/-- The sorting relation on Counter keys, as a proposition. -/
def keyLe (a b : CodonKey) : Prop := keyLeB a b = true

instance : DecidableRel keyLe := fun a b => inferInstanceAs (Decidable (keyLeB a b = true))

theorem charListLeB_total : ∀ a b : List Char, charListLeB a b = true ∨ charListLeB b a = true
  | [], _ => Or.inl rfl
  | _ :: _, [] => Or.inr rfl
  | a :: as, b :: bs => by
    rcases lt_trichotomy a b with hab | hab | hab
    · exact Or.inl (by simp [charListLeB, hab])
    · subst hab
      rcases charListLeB_total as bs with h | h
      · exact Or.inl (by simp [charListLeB, h])
      · exact Or.inr (by simp [charListLeB, h])
    · exact Or.inr (by simp [charListLeB, hab])

theorem charListLeB_trans : ∀ a b c : List Char,
    charListLeB a b = true → charListLeB b c = true → charListLeB a c = true
  | [], _, _, _, _ => rfl
  | _ :: _, [], _, h1, _ => by simp [charListLeB] at h1
  | _ :: _, _ :: _, [], _, h2 => by simp [charListLeB] at h2
  | a :: as, b :: bs, c :: cs, h1, h2 => by
    simp only [charListLeB] at h1 h2 ⊢
    rcases lt_trichotomy a b with hab | hab | hab
    · rcases lt_trichotomy b c with hbc | hbc | hbc
      · simp [lt_trans hab hbc]
      · subst hbc; simp [hab]
      · simp [lt_asymm hbc, hbc] at h2
    · subst hab
      rcases lt_trichotomy a c with hac | hac | hac
      · simp [hac]
      · subst hac
        simp only [lt_self_iff_false, if_false] at h1 h2 ⊢
        exact charListLeB_trans as bs cs h1 h2
      · simp [lt_asymm hac, hac] at h2
    · simp [lt_asymm hab, hab] at h1

theorem charListLeB_antisymm : ∀ a b : List Char,
    charListLeB a b = true → charListLeB b a = true → a = b
  | [], [], _, _ => rfl
  | [], _ :: _, _, h2 => by simp [charListLeB] at h2
  | _ :: _, [], h1, _ => by simp [charListLeB] at h1
  | a :: as, b :: bs, h1, h2 => by
    simp only [charListLeB] at h1 h2
    rcases lt_trichotomy a b with hab | hab | hab
    · simp [lt_asymm hab, hab] at h2
    · subst hab
      simp only [lt_self_iff_false, if_false] at h1 h2
      rw [charListLeB_antisymm as bs h1 h2]
    · simp [lt_asymm hab, hab] at h1

theorem strLeB_total (a b : String) : strLeB a b = true ∨ strLeB b a = true :=
  charListLeB_total a.data b.data

theorem strLeB_trans {a b c : String} (h1 : strLeB a b = true) (h2 : strLeB b c = true) :
    strLeB a c = true :=
  charListLeB_trans a.data b.data c.data h1 h2

theorem strLeB_antisymm {a b : String} (h1 : strLeB a b = true) (h2 : strLeB b a = true) :
    a = b := by
  cases a; cases b
  exact congrArg String.mk (charListLeB_antisymm _ _ h1 h2)

theorem keyLe_total : ∀ a b : CodonKey, keyLe a b ∨ keyLe b a := by
  rintro ⟨a1, a2, a3⟩ ⟨b1, b2, b3⟩
  simp only [keyLe, keyLeB]
  by_cases h1 : a1 = b1
  · subst h1
    rw [if_neg (not_not_intro rfl), if_neg (not_not_intro rfl)]
    by_cases h2 : a2 = b2
    · subst h2
      rw [if_neg (not_not_intro rfl), if_neg (not_not_intro rfl)]
      exact strLeB_total a3 b3
    · rw [if_pos h2, if_pos (fun h => h2 h.symm)]
      exact strLeB_total a2 b2
  · rw [if_pos h1, if_pos (fun h => h1 h.symm)]
    exact strLeB_total a1 b1

theorem keyLe_trans : ∀ a b c : CodonKey, keyLe a b → keyLe b c → keyLe a c := by
  rintro ⟨a1, a2, a3⟩ ⟨b1, b2, b3⟩ ⟨c1, c2, c3⟩ h1 h2
  simp only [keyLe, keyLeB] at h1 h2 ⊢
  by_cases hab1 : a1 = b1
  · subst hab1
    rw [if_neg (not_not_intro rfl)] at h1
    by_cases hbc1 : a1 = c1
    · subst hbc1
      rw [if_neg (not_not_intro rfl)] at h2 ⊢
      by_cases hab2 : a2 = b2
      · subst hab2
        rw [if_neg (not_not_intro rfl)] at h1
        by_cases hbc2 : a2 = c2
        · subst hbc2
          rw [if_neg (not_not_intro rfl)] at h2 ⊢
          exact strLeB_trans h1 h2
        · rw [if_pos hbc2] at h2 ⊢
          exact h2
      · by_cases hbc2 : b2 = c2
        · subst hbc2
          rw [if_pos hab2] at h1 ⊢
          exact h1
        · rw [if_pos hab2] at h1
          rw [if_pos hbc2] at h2
          by_cases hac2 : a2 = c2
          · exact absurd (strLeB_antisymm h1 (hac2 ▸ h2)) hab2
          · rw [if_pos hac2]
            exact strLeB_trans h1 h2
    · rw [if_pos hbc1] at h2
      rw [if_pos hbc1]
      exact h2
  · rw [if_pos hab1] at h1
    by_cases hbc1 : b1 = c1
    · subst hbc1
      rw [if_pos hab1]
      exact h1
    · rw [if_pos hbc1] at h2
      by_cases hac1 : a1 = c1
      · exact absurd (strLeB_antisymm h1 (hac1 ▸ h2)) hab1
      · rw [if_pos hac1]
        exact strLeB_trans h1 h2

instance : IsTotal CodonKey keyLe := ⟨keyLe_total⟩

instance : IsTrans CodonKey keyLe := ⟨fun a b c => keyLe_trans a b c⟩

/-- Models `sorted(codon_aa_counts.items())` (core.py line 141): the distinct keys of
the Counter built from `evs`, in Python sorted order, with their counts.
(Counter keys are distinct, so sorting items is sorting by key.) -/
def sortedItems (evs : List CodonKey) : List (CodonKey × ℕ) :=
  (evs.dedup.insertionSort keyLe).map fun k => (k, evs.count k)

/-- Models `total_codons = sum(codon_aa_counts.values())` (core.py line 135). -/
def totalCodons (evs : List CodonKey) : ℕ :=
  (evs.dedup.map fun k => evs.count k).sum

/-- One row of the report table (the dict appended at core.py lines 144–152). -/
structure ReportRow where
  aminoAcid : String
  codon : String
  count : ℕ
  freqPercent : ℚ
  specialType : String
deriving Repr, DecidableEq

/-- The row built for one Counter item (core.py lines 142–152). -/
def mkRow (total_codons : ℕ) (item : CodonKey × ℕ) : ReportRow :=
  { aminoAcid := if item.1.2.2 = "STOP" ∨ item.1.2.1 = "*" then "*" else item.1.2.1
    codon := item.1.1
    count := item.2
    freqPercent := (item.2 : ℚ) / (total_codons : ℚ) * 100
    specialType := item.1.2.2 }

/-- The full `data` list (core.py lines 139–153). -/
def reportRows (evs : List CodonKey) : List ReportRow :=
  (sortedItems evs).map (mkRow (totalCodons evs))

/-- The `(codon, amino acid, role)` triple a report row displays. -/
def rowKey (r : ReportRow) : CodonKey := (r.codon, r.aminoAcid, r.specialType)

/-- The frequency filter (core.py lines 160–163):
`df[df["Freq. (%)"] >= min_freq_threshold]`, applied only when the threshold is
positive. -/
def applyFreqFilter (min_freq_threshold : ℚ) (rows : List ReportRow) : List ReportRow :=
  if min_freq_threshold > 0 then
    rows.filter fun r => decide (min_freq_threshold ≤ r.freqPercent)
  else rows

/-- Models `calculate_codon_frequency_to_df` (core.py lines 33–167).  `source = none`
models `SeqIO.parse` raising (file not found or malformed source), which the
`except` blocks turn into a `None` result. -/
def calculate_codon_frequency_to_df
    (source : Option (List SeqRecord)) (min_freq_threshold : ℚ) :
    Option (List ReportRow) :=
  match source with
  | none => none
  | some records =>
    match allEvents records with
    | none => none
    | some evs =>
      if totalCodons evs = 0 then none
      else
        let data := reportRows evs
        if data = [] then none
        else some (applyFreqFilter min_freq_threshold data)

/-- Models `run_codon_analysis` (core.py lines 170–214), reduced to the threshold
selection and the call to `calculate_codon_frequency_to_df`; a missing input
file is the `none` source.  Export and printing are out-of-scope
collaborators that do not change the returned table. -/
def run_codon_analysis (source : Option (List SeqRecord)) (no_freq_filter : Bool) :
    Option (List ReportRow) :=
  let min_freq_threshold := if no_freq_filter then 0 else DEFAULT_MIN_FREQ
  calculate_codon_frequency_to_df source min_freq_threshold

/-- The spec's single-CDS scenario: 9 bases `ATGGCTGGT`, translation `"MGG"`. -/
def demoFeature : SeqFeature :=
  { type := "CDS"
    qualifiers := [("locus_tag", ["TEST1"]), ("translation", ["MGG"])]
    extract := "ATGGCTGGT" }

/-- A single record holding only the demo CDS. -/
def demoRecords : List SeqRecord := [{ features := [demoFeature] }]

/-- The report rows the demo scenario produces (each of the three codons once,
at `100/3` percent). -/
def demoRows : List ReportRow :=
  [⟨"M", "ATG", 1, 100 / 3, "START"⟩,
   ⟨"G", "GCT", 1, 100 / 3, ""⟩,
   ⟨"G", "GGT", 1, 100 / 3, ""⟩]

/-- A CDS of 10 bases (not a multiple of 3): `ATGGCTGGTA`, translation `MGG`;
only its first 9 bases form complete codons. -/
def demo10Feature : SeqFeature :=
  { type := "CDS"
    qualifiers := [("locus_tag", ["TEST2"]), ("translation", ["MGG"])]
    extract := "ATGGCTGGTA" }

/-- A single record holding only the 10-base CDS. -/
def demo10Records : List SeqRecord := [{ features := [demo10Feature] }]

/-- A pseudogene CDS: carries the `pseudo` qualifier. -/
def pseudoFeature : SeqFeature :=
  { type := "CDS"
    qualifiers := [("locus_tag", ["TEST3"]), ("translation", ["MGG"]), ("pseudo", ["true"])]
    extract := "ATGGCTGGT" }

/-- A CDS whose extraction yields the empty sequence. -/
def emptyFeature : SeqFeature :=
  { type := "CDS"
    qualifiers := [("locus_tag", ["TEST4"]), ("translation", ["M"])]
    extract := "" }

theorem demoEvents_eq : allEvents demoRecords =
    some [("ATG", "M", "START"), ("GCT", "G", ""), ("GGT", "G", "")] := by decide

theorem demoItems_eq :
    sortedItems [("ATG", "M", "START"), ("GCT", "G", ""), ("GGT", "G", "")] =
      [(("ATG", "M", "START"), 1), (("GCT", "G", ""), 1), (("GGT", "G", ""), 1)] := by decide

theorem demoTotal_eq :
    totalCodons [("ATG", "M", "START"), ("GCT", "G", ""), ("GGT", "G", "")] = 3 := by decide

/-- The unfiltered report of the demo scenario, computed once and shared. -/
theorem demoReport_eq :
    calculate_codon_frequency_to_df (some demoRecords) 0 = some demoRows := by
  simp only [calculate_codon_frequency_to_df, demoEvents_eq, demoItems_eq, demoTotal_eq,
    reportRows, mkRow, applyFreqFilter, demoRows, List.map_cons, List.map_nil]
  norm_num [ReportRow.mk.injEq]
  decide

/-- The demo report at threshold 50: every row is filtered out, but the result
stays present (an empty table, not `None`). -/
theorem demoReportFiltered_eq :
    calculate_codon_frequency_to_df (some demoRecords) 50 = some [] := by
  simp only [calculate_codon_frequency_to_df, demoEvents_eq, demoItems_eq, demoTotal_eq,
    reportRows, mkRow, applyFreqFilter, List.map_cons, List.map_nil]
  norm_num [List.filter]
  intro h
  simp at h

/-- C1: a single CDS with sequence `ATGGCTGGT` and translation `"MGG"` yields
exactly the three CodonEvents `(ATG, M, START)`, `(GCT, G, ordinary)`,
`(GGT, G, ordinary)`, each counted once; the total count is 3 and every row of
the unfiltered report has frequency `100/3` percent. -/
theorem C1_role_assignment :
    allEvents demoRecords =
      some [("ATG", "M", "START"), ("GCT", "G", ""), ("GGT", "G", "")] ∧
    totalCodons [("ATG", "M", "START"), ("GCT", "G", ""), ("GGT", "G", "")] = 3 ∧
    calculate_codon_frequency_to_df (some demoRecords) 0 =
      some [⟨"M", "ATG", 1, 100 / 3, "START"⟩,
            ⟨"G", "GCT", 1, 100 / 3, ""⟩,
            ⟨"G", "GGT", 1, 100 / 3, ""⟩] :=
  ⟨by decide, by decide, demoReport_eq⟩

theorem length_pyUpper (s : String) : (pyUpper s).length = s.length := by
  show (s.data.map Char.toUpper).length = s.data.length
  simp

theorem length_codonEvents (s t : String) : (codonEvents s t).length = s.length / 3 := by
  simp only [codonEvents, List.length_map, List.length_range]
  omega

/-- What the feature loop contributes, by the skip checks: a non-skipped CDS
contributes one event per complete codon, everything else contributes none. -/
theorem processFeature_length (f : SeqFeature) (e : List CodonKey) (b : Bool)
    (h : processFeature f = some (e, b)) :
    e.length = if notSkipped f then f.extract.length / 3 else 0 := by
  unfold processFeature at h
  by_cases hty : f.type = "CDS"
  · rw [if_pos hty] at h
    unfold processCDS at h
    split at h
    · exact absurd h (by simp)
    · next lt hlt =>
      split at h
      · exact absurd h (by simp)
      · next tr htr =>
        split at h
        · next htr0 =>
          obtain ⟨rfl, rfl⟩ : e = [] ∧ b = false := by
            simpa [eq_comm] using h
          rw [if_neg]
          · rfl
          · rintro ⟨-, -, hne, -, -⟩
            exact hne (htr.trans (by rw [htr0]))
        · next htr0 =>
          split at h
          · next hps =>
            obtain ⟨rfl, rfl⟩ : e = [] ∧ b = false := by
              simpa [eq_comm] using h
            rw [if_neg]
            · rfl
            · rintro ⟨-, -, -, hps2, -⟩
              simp [hps] at hps2
          · next hps =>
            split at h
            · next hvb =>
              obtain ⟨rfl, rfl⟩ : e = [] ∧ b = true := by
                simpa [eq_comm] using h
              rw [if_neg]
              · rfl
              · rintro ⟨-, -, -, -, hvb2⟩
                exact hvb hvb2
            · next hvb =>
              obtain ⟨rfl, rfl⟩ : e = codonEvents (pyUpper f.extract) tr ∧ b = true := by
                simpa [eq_comm] using h
              rw [if_pos]
              · rw [length_codonEvents, length_pyUpper]
              · exact ⟨hty, by simp [htr], by simpa [htr] using htr0,
                  by simpa only [Bool.not_eq_true] using hps, not_not.mp hvb⟩
  · rw [if_neg hty] at h
    obtain ⟨rfl, rfl⟩ : e = [] ∧ b = false := by
      simpa [eq_comm] using h
    rw [if_neg]
    · rfl
    · rintro ⟨hty2, -⟩
      exact hty hty2

theorem sum_map_ite_one (a : CodonKey) : ∀ l : List CodonKey, l.Nodup →
    (l.map fun k => if a == k then 1 else 0).sum = if a ∈ l then 1 else 0
  | [], _ => by simp
  | b :: l, h => by
    obtain ⟨hb, hl⟩ := List.nodup_cons.mp h
    simp only [List.map_cons, List.sum_cons, sum_map_ite_one a l hl]
    by_cases hba : a = b
    · subst hba
      simp [hb]
    · have hba2 : ¬ (a == b) = true := by simpa using hba
      simp [List.mem_cons, hba2, hba]

/-- The sum `sum(Counter(evs).values())` is the number of events. -/
theorem totalCodons_eq_length : ∀ evs : List CodonKey, totalCodons evs = evs.length := by
  intro evs
  induction evs with
  | nil => rfl
  | cons a as ih =>
    unfold totalCodons at ih ⊢
    by_cases ha : a ∈ as
    · rw [List.dedup_cons_of_mem ha]
      simp_rw [List.count_cons]
      rw [List.sum_map_add, ih, sum_map_ite_one a _ (List.nodup_dedup as)]
      simp [List.mem_dedup, ha]
    · rw [List.dedup_cons_of_not_mem ha]
      simp_rw [List.count_cons]
      simp only [List.map_cons, List.sum_cons]
      rw [List.sum_map_add, ih, sum_map_ite_one a _ (List.nodup_dedup as)]
      simp [List.mem_dedup, ha, List.count_eq_zero.2 ha, Nat.add_comm]

theorem featuresEvents_length : ∀ fs evs, featuresEvents fs = some evs →
    evs.length =
      ((fs.filter fun f => decide (notSkipped f)).map fun f => f.extract.length / 3).sum := by
  intro fs
  induction fs with
  | nil =>
    intro evs h
    obtain rfl : ([] : List CodonKey) = evs := by simpa [featuresEvents] using h
    simp
  | cons f fs ih =>
    intro evs h
    unfold featuresEvents at h
    rw [Option.bind_eq_some] at h
    obtain ⟨⟨e, b⟩, hpf, h⟩ := h
    rw [Option.bind_eq_some] at h
    obtain ⟨rest, hfs, h⟩ := h
    obtain rfl : e ++ rest = evs := by simpa using h
    rw [List.length_append, ih rest hfs, List.filter_cons]
    by_cases hns : notSkipped f
    · rw [if_pos (by simpa using hns)]
      simp only [List.map_cons, List.sum_cons]
      have hlen := processFeature_length f e b hpf
      rw [if_pos hns] at hlen
      omega
    · rw [if_neg (by simpa using hns)]
      have hlen := processFeature_length f e b hpf
      rw [if_neg hns] at hlen
      omega

theorem allEvents_length : ∀ rs evs, allEvents rs = some evs →
    evs.length =
      (rs.map fun r =>
        ((r.features.filter fun f => decide (notSkipped f)).map
          fun f => f.extract.length / 3).sum).sum := by
  intro rs
  induction rs with
  | nil =>
    intro evs h
    obtain rfl : ([] : List CodonKey) = evs := by simpa [allEvents] using h
    simp
  | cons r rs ih =>
    intro evs h
    unfold allEvents at h
    rw [Option.bind_eq_some] at h
    obtain ⟨e, hfe, h⟩ := h
    rw [Option.bind_eq_some] at h
    obtain ⟨rest, hrs, h⟩ := h
    obtain rfl : e ++ rest = evs := by simpa using h
    rw [List.length_append, ih rest hrs, featuresEvents_length r.features e hfe]
    simp

/-- C2: the sum of all AggregateCounts values equals the number of complete
codon positions across the non-skipped CDS features: the sum, over every
feature that passes the skip checks, of `⌊len(sequence)/3⌋` (so a trailing
partial codon contributes nothing). -/
theorem C2_count_conservation (recs : List SeqRecord) (evs : List CodonKey)
    (h : allEvents recs = some evs) :
    totalCodons evs =
      (recs.map fun r =>
        ((r.features.filter fun f => decide (notSkipped f)).map
          fun f => f.extract.length / 3).sum).sum := by
  rw [totalCodons_eq_length]
  exact allEvents_length recs evs h

/-- C2 witness: a single non-skipped CDS of 10 bases contributes exactly
3 codons. -/
theorem C2_count_conservation_witness :
    allEvents demo10Records =
      some [("ATG", "M", "START"), ("GCT", "G", ""), ("GGT", "G", "")] ∧
    totalCodons [("ATG", "M", "START"), ("GCT", "G", ""), ("GGT", "G", "")] =
      (demo10Records.map fun r =>
        ((r.features.filter fun f => decide (notSkipped f)).map
          fun f => f.extract.length / 3).sum).sum ∧
    (demo10Records.map fun r =>
      ((r.features.filter fun f => decide (notSkipped f)).map
        fun f => f.extract.length / 3).sum).sum = 3 :=
  ⟨by decide, C2_count_conservation demo10Records _ (by decide), by decide⟩

/-- The cons equation of `featuresEvents`, kept foldable for rewriting. -/
theorem featuresEvents_cons (f : SeqFeature) (fs : List SeqFeature) :
    featuresEvents (f :: fs) =
      (processFeature f).bind fun eb =>
        (featuresEvents fs).bind fun rest => some (eb.1 ++ rest) := rfl

/-- Well-formed qualifiers never make a defaulted `[0]` access raise. -/
theorem qualGet0_isSome {f : SeqFeature} (hwf : qualsWellFormed f) (key : String)
    (dflt : List String) (hd : dflt ≠ []) : (qualGet0 f.qualifiers key dflt).isSome := by
  unfold qualGet0 qualGet
  cases hlk : f.qualifiers.lookup key with
  | none => simpa using hd
  | some v =>
    have hv : (key, v) ∈ f.qualifiers := by
      rcases List.lookup_eq_some_iff.mp hlk with ⟨l1, l2, hsplit, -⟩
      rw [hsplit]
      exact List.mem_append.mpr (Or.inr (List.mem_cons_self _ _))
    simpa using hwf _ hv

/-- A CDS feature hitting one of the three skip defects is skipped: it yields
no events and no exception. -/
theorem processFeature_skipped (f : SeqFeature) (hty : f.type = "CDS")
    (hwf : qualsWellFormed f) (hdef : defectiveSkip f) :
    ∃ b, processFeature f = some ([], b) := by
  obtain ⟨lt, hlt⟩ :=
    Option.isSome_iff_exists.mp (qualGet0_isSome hwf "locus_tag" ["?"] (by simp))
  obtain ⟨tr, htr⟩ :=
    Option.isSome_iff_exists.mp (qualGet0_isSome hwf "translation" [""] (by simp))
  unfold processFeature processCDS
  rw [if_pos hty]
  simp only [hlt, htr]
  by_cases h0 : tr = ""
  · rw [if_pos h0]
    exact ⟨false, rfl⟩
  · rw [if_neg h0]
    by_cases hps : (f.qualifiers.lookup "pseudo").isSome
    · rw [if_pos hps]
      exact ⟨false, rfl⟩
    · rw [if_neg hps]
      have hvb : ¬ validBasesOnly (pyUpper f.extract) := by
        rcases hdef with h | h | h
        · exact absurd (Option.some.inj (htr.symm.trans h)) h0
        · exact absurd h hps
        · exact h
      rw [if_pos hvb]
      exact ⟨true, rfl⟩

/-- Removing a feature that contributes no events does not change the
aggregation of the remaining features. -/
theorem featuresEvents_skip (f : SeqFeature) (b : Bool)
    (hf : processFeature f = some ([], b)) (pre post : List SeqFeature) :
    featuresEvents (pre ++ f :: post) = featuresEvents (pre ++ post) := by
  induction pre with
  | nil =>
    simp only [List.nil_append]
    rw [featuresEvents_cons, hf]
    cases featuresEvents post <;> simp
  | cons g pre ih =>
    simp only [List.cons_append]
    rw [featuresEvents_cons, featuresEvents_cons, ih]

/-- C3: per-feature data defects are non-fatal.  A CDS with a missing or empty
translation, a `pseudo` qualifier, or non-ATCG bases contributes zero
CodonEvents and aggregation of the surrounding features is unchanged (no abort,
no absent result); a non-multiple-of-3 CDS that passes the checks contributes
exactly its truncated complete codons. -/
theorem C3_defects_nonfatal :
    (∀ f : SeqFeature, f.type = "CDS" → qualsWellFormed f → defectiveSkip f →
      (∃ b, processFeature f = some ([], b)) ∧
      ∀ pre post, featuresEvents (pre ++ f :: post) = featuresEvents (pre ++ post)) ∧
    (∀ (f : SeqFeature) (e : List CodonKey) (b : Bool),
      processFeature f = some (e, b) → notSkipped f →
      e.length = f.extract.length / 3) := by
  constructor
  · intro f hty hwf hdef
    obtain ⟨b, hb⟩ := processFeature_skipped f hty hwf hdef
    exact ⟨⟨b, hb⟩, fun pre post => featuresEvents_skip f b hb pre post⟩
  · intro f e b h hns
    have hlen := processFeature_length f e b h
    rwa [if_pos hns] at hlen

/-- C3 witness: a pseudogene CDS between other features changes nothing, and a
10-base CDS contributes its 3 truncated codons. -/
theorem C3_defects_nonfatal_witness :
    (pseudoFeature.type = "CDS" ∧ qualsWellFormed pseudoFeature ∧
      defectiveSkip pseudoFeature) ∧
    featuresEvents ([] ++ pseudoFeature :: [demoFeature]) =
      featuresEvents ([] ++ [demoFeature]) ∧
    ([("ATG", "M", "START"), ("GCT", "G", ""), ("GGT", "G", "")] : List CodonKey).length =
      demo10Feature.extract.length / 3 :=
  ⟨⟨rfl, by decide, by decide⟩,
   (C3_defects_nonfatal.1 pseudoFeature rfl (by decide) (by decide)).2 [] [demoFeature],
   C3_defects_nonfatal.2 demo10Feature _ true (by decide) (by decide)⟩

/-- C10: a CDS with a nonempty translation, no `pseudo` qualifier, and an
empty extracted sequence is not a defect: the ATCG validation passes vacuously
(the feature is even counted as processed), it contributes zero CodonEvents,
and aggregation continues unchanged. -/
theorem C10_empty_sequence (f : SeqFeature) (hty : f.type = "CDS")
    (hwf : qualsWellFormed f)
    (htr : qualGet0 f.qualifiers "translation" [""] ≠ some "")
    (hps : (f.qualifiers.lookup "pseudo").isSome = false)
    (hext : f.extract = "") :
    validBasesOnly (pyUpper f.extract) ∧
    processFeature f = some ([], true) ∧
    ∀ fs, featuresEvents (f :: fs) = featuresEvents fs := by
  have hvb : validBasesOnly (pyUpper f.extract) := by
    rw [hext]
    decide
  obtain ⟨lt, hlt⟩ :=
    Option.isSome_iff_exists.mp (qualGet0_isSome hwf "locus_tag" ["?"] (by simp))
  obtain ⟨tr, htr2⟩ :=
    Option.isSome_iff_exists.mp (qualGet0_isSome hwf "translation" [""] (by simp))
  have hpf : processFeature f = some ([], true) := by
    unfold processFeature processCDS
    rw [if_pos hty]
    simp only [hlt, htr2]
    rw [if_neg (fun h0 => htr (htr2.trans (by rw [h0])))]
    rw [if_neg (by simp [hps])]
    rw [if_neg (not_not_intro hvb)]
    rw [hext]
    rfl
  exact ⟨hvb, hpf, fun fs => featuresEvents_skip f true hpf [] fs⟩

/-- C10 witness: a concrete empty-sequence CDS passes validation, contributes
nothing, and the rest of the aggregation is unchanged. -/
theorem C10_empty_sequence_witness :
    validBasesOnly (pyUpper emptyFeature.extract) ∧
    processFeature emptyFeature = some ([], true) ∧
    featuresEvents (emptyFeature :: [demoFeature]) = featuresEvents [demoFeature] := by
  obtain ⟨h1, h2, h3⟩ :=
    C10_empty_sequence emptyFeature rfl (by decide) (by decide) (by decide) rfl
  exact ⟨h1, h2, h3 [demoFeature]⟩

theorem reportRows_length (evs : List CodonKey) :
    (reportRows evs).length = evs.dedup.length := by
  simp [reportRows, sortedItems, List.length_insertionSort]

/-- A nonzero total guarantees the `data` list is nonempty, so the redundant
`df.empty` check of core.py line 155 never fires. -/
theorem reportRows_ne_nil {evs : List CodonKey} (h : totalCodons evs ≠ 0) :
    reportRows evs ≠ [] := by
  rw [totalCodons_eq_length] at h
  intro hnil
  have hlen := congrArg List.length hnil
  rw [reportRows_length] at hlen
  simp only [List.length_nil, List.length_eq_zero] at hlen
  exact h (by simpa using congrArg List.length ((List.dedup_eq_nil evs).mp hlen))

/-- Inversion of a present result: the source parsed, events were produced,
the total is nonzero, and the rows are the filtered full table. -/
theorem calculate_eq_some {source : Option (List SeqRecord)} {t : ℚ}
    {rows : List ReportRow}
    (h : calculate_codon_frequency_to_df source t = some rows) :
    ∃ recs evs, source = some recs ∧ allEvents recs = some evs ∧
      totalCodons evs ≠ 0 ∧ rows = applyFreqFilter t (reportRows evs) := by
  cases source with
  | none => simp [calculate_codon_frequency_to_df] at h
  | some recs =>
    cases hae : allEvents recs with
    | none => simp [calculate_codon_frequency_to_df, hae] at h
    | some evs =>
      by_cases h0 : totalCodons evs = 0
      · simp [calculate_codon_frequency_to_df, hae, h0] at h
      · have hne := reportRows_ne_nil h0
        simp only [calculate_codon_frequency_to_df, hae, h0, hne, if_neg, if_false] at h
        refine ⟨recs, evs, rfl, hae, h0, ?_⟩
        simpa [h0, hne] using h.symm

/-- C4: the result is absent (`None`) exactly when the source could not be
read or parsed, a feature raised, or the total accumulated count is zero; in
every other case the table derived from the complete aggregation (optionally
frequency-filtered, never truncated to a partial aggregation) is returned. -/
theorem C4_absent_iff (source : Option (List SeqRecord)) (t : ℚ) :
    (calculate_codon_frequency_to_df source t = none ↔
      source = none ∨
      (∃ recs, source = some recs ∧ allEvents recs = none) ∨
      (∃ recs evs, source = some recs ∧ allEvents recs = some evs ∧
        totalCodons evs = 0)) ∧
    (∀ recs evs, source = some recs → allEvents recs = some evs →
      totalCodons evs ≠ 0 →
      calculate_codon_frequency_to_df source t =
        some (applyFreqFilter t (reportRows evs))) := by
  constructor
  · cases source with
    | none => simp [calculate_codon_frequency_to_df]
    | some recs =>
      cases hae : allEvents recs with
      | none => simp [calculate_codon_frequency_to_df, hae]
      | some evs =>
        by_cases h0 : totalCodons evs = 0
        · simp [calculate_codon_frequency_to_df, hae, h0]
        · have hne := reportRows_ne_nil h0
          simp [calculate_codon_frequency_to_df, hae, h0, hne]
  · intro recs evs hsrc hae h0
    subst hsrc
    have hne := reportRows_ne_nil h0
    simp [calculate_codon_frequency_to_df, hae, h0, hne]

/-- C4 witness: a parse failure yields an absent result; the demo input yields
the full table. -/
theorem C4_absent_iff_witness :
    calculate_codon_frequency_to_df none 0 = none ∧
    calculate_codon_frequency_to_df (some demoRecords) 0 =
      some (applyFreqFilter 0 (reportRows
        [("ATG", "M", "START"), ("GCT", "G", ""), ("GGT", "G", "")])) :=
  ⟨(C4_absent_iff none 0).1.mpr (Or.inl rfl),
   (C4_absent_iff (some demoRecords) 0).2 demoRecords _ rfl demoEvents_eq (by decide)⟩

/-- C5: in an unfiltered report every frequency lies in `[0, 100]` and the
frequencies sum to exactly 100 (in exact rational arithmetic). -/
theorem C5_frequency_normalization (source : Option (List SeqRecord))
    (rows : List ReportRow)
    (h : calculate_codon_frequency_to_df source 0 = some rows) :
    (∀ r ∈ rows, 0 ≤ r.freqPercent ∧ r.freqPercent ≤ 100) ∧
    (rows.map fun r => r.freqPercent).sum = 100 := by
  obtain ⟨recs, evs, -, -, h0, rfl⟩ := calculate_eq_some h
  have hfilter : applyFreqFilter 0 (reportRows evs) = reportRows evs := by
    unfold applyFreqFilter
    rw [if_neg (by norm_num)]
  rw [hfilter]
  have hT : ((totalCodons evs : ℚ)) ≠ 0 := Nat.cast_ne_zero.mpr h0
  constructor
  · intro r hr
    simp only [reportRows, sortedItems, List.map_map, List.mem_map] at hr
    obtain ⟨k, hk, rfl⟩ := hr
    have hcount : evs.count k ≤ totalCodons evs := by
      rw [totalCodons_eq_length]
      exact List.count_le_length k evs
    have hTpos : (0 : ℚ) < (totalCodons evs : ℚ) := by
      have := Nat.pos_of_ne_zero h0
      exact_mod_cast this
    constructor
    · exact mul_nonneg (div_nonneg (by positivity) (by positivity)) (by norm_num)
    · calc ((evs.count k : ℚ)) / (totalCodons evs : ℚ) * 100
          ≤ 1 * 100 := by
            apply mul_le_mul_of_nonneg_right _ (by norm_num)
            rw [div_le_one hTpos]
            exact_mod_cast hcount
        _ = 100 := by norm_num
  · have key : ∀ l : List CodonKey,
        (((l.map fun k => (k, evs.count k)).map (mkRow (totalCodons evs))).map
          fun r => r.freqPercent) =
          l.map fun k => ((evs.count k : ℚ)) * (100 / (totalCodons evs : ℚ)) := by
      intro l
      induction l with
      | nil => rfl
      | cons k l ih =>
        simp only [List.map_cons, ih, mkRow]
        rw [div_mul_eq_mul_div, mul_div_assoc]
    simp only [reportRows, sortedItems]
    rw [key]
    rw [List.Perm.sum_eq ((List.perm_insertionSort keyLe evs.dedup).map _)]
    rw [List.sum_map_mul_right]
    have hcast : ∀ l : List CodonKey,
        (l.map fun k => ((evs.count k : ℚ))).sum =
          (((l.map fun k => evs.count k).sum : ℕ) : ℚ) := by
      intro l
      induction l with
      | nil => simp
      | cons k l ih => simp [ih]
    rw [hcast]
    rw [show ((evs.dedup.map fun k => evs.count k).sum : ℕ) = totalCodons evs from rfl]
    field_simp

/-- C5 witness: the demo report's three frequencies are in range and sum
to 100. -/
theorem C5_frequency_normalization_witness :
    (∀ r ∈ demoRows, 0 ≤ r.freqPercent ∧ r.freqPercent ≤ 100) ∧
    (demoRows.map fun r => r.freqPercent).sum = 100 :=
  C5_frequency_normalization (some demoRecords) demoRows demoReport_eq

/-- C6: raising the threshold only shrinks the report: every row of the
report at threshold `t2 ≥ t1 ≥ 0` is a row of the report at `t1`. -/
theorem C6_filter_monotone (source : Option (List SeqRecord)) (t1 t2 : ℚ)
    (_ht1nn : 0 ≤ t1) (h12 : t1 ≤ t2) (rows1 rows2 : List ReportRow)
    (h1 : calculate_codon_frequency_to_df source t1 = some rows1)
    (h2 : calculate_codon_frequency_to_df source t2 = some rows2) :
    ∀ r ∈ rows2, r ∈ rows1 := by
  obtain ⟨recs, evs, rfl, hae, hn0, hr1⟩ := calculate_eq_some h1
  obtain ⟨recs2, evs2, heq, hae2, hn02, hr2⟩ := calculate_eq_some h2
  obtain rfl : recs2 = recs := by
    exact (Option.some.inj heq).symm
  obtain rfl : evs2 = evs := by
    rw [hae] at hae2
    exact (Option.some.inj hae2).symm
  subst hr1
  subst hr2
  intro r hr
  unfold applyFreqFilter at hr ⊢
  by_cases ht2 : t2 > 0
  · rw [if_pos ht2] at hr
    obtain ⟨hmem, hge⟩ := List.mem_filter.mp hr
    by_cases ht1 : t1 > 0
    · rw [if_pos ht1]
      refine List.mem_filter.mpr ⟨hmem, ?_⟩
      simp only [decide_eq_true_eq] at hge ⊢
      exact le_trans h12 hge
    · rw [if_neg ht1]
      exact hmem
  · rw [if_neg ht2] at hr
    rw [if_neg (by intro ht1; exact ht2 (lt_of_lt_of_le ht1 h12))]
    exact hr

/-- C6 witness: the demo report at threshold 50 (empty) is a subset of the
unfiltered demo report. -/
theorem C6_filter_monotone_witness :
    (0 : ℚ) ≤ 0 ∧ (0 : ℚ) ≤ 50 ∧
    ∀ r ∈ ([] : List ReportRow), r ∈ demoRows :=
  ⟨le_refl 0, by norm_num,
   C6_filter_monotone (some demoRecords) 0 50 (le_refl 0) (by norm_num)
     demoRows [] demoReport_eq demoReportFiltered_eq⟩

theorem codonEvents_stop_star (s t : String) :
    ∀ e ∈ codonEvents s t, e.2.2 = "STOP" → e.2.1 = "*" := by
  intro e he hstop
  simp only [codonEvents, List.mem_map, List.mem_range] at he
  obtain ⟨j, hj, rfl⟩ := he
  by_cases hji : j < t.length
  · rw [if_pos hji] at hstop
    by_cases hj0 : 3 * j = 0
    · rw [if_pos hj0] at hstop
      simp at hstop
    · rw [if_neg hj0] at hstop
      simp at hstop
  · rw [if_neg hji]

theorem codonEvents_codon_shape (s t : String) (hvb : validBasesOnly s) :
    ∀ e ∈ codonEvents s t, e.1.length = 3 ∧ ∀ c ∈ e.1.data, c ∈ VALID_BASES := by
  intro e he
  simp only [codonEvents, List.mem_map, List.mem_range] at he
  obtain ⟨j, hj, rfl⟩ := he
  have hbound : 3 * j + 3 ≤ s.length := by omega
  have hfirst : (if j < t.length then
      (pySlice s (3 * j) (3 * j + 3), pyIndex t j, if 3 * j = 0 then "START" else "")
    else (pySlice s (3 * j) (3 * j + 3), "*", "STOP")).1 =
      pySlice s (3 * j) (3 * j + 3) := by
    by_cases hji : j < t.length
    · rw [if_pos hji]
    · rw [if_neg hji]
  rw [hfirst]
  have hd : s.data.length = s.length := rfl
  constructor
  · show ((s.data.drop (3 * j)).take ((3 * j + 3) - (3 * j))).length = 3
    rw [List.length_take, List.length_drop, hd]
    omega
  · intro c hc
    exact hvb c (List.mem_of_mem_drop (List.mem_of_mem_take hc))

theorem processFeature_events_shape (f : SeqFeature) (e : List CodonKey) (b : Bool)
    (h : processFeature f = some (e, b)) :
    ∀ x ∈ e, x.1.length = 3 ∧ (∀ c ∈ x.1.data, c ∈ VALID_BASES) ∧
      (x.2.2 = "STOP" → x.2.1 = "*") := by
  intro x hx
  unfold processFeature at h
  by_cases hty : f.type = "CDS"
  · rw [if_pos hty] at h
    unfold processCDS at h
    split at h
    · exact absurd h (by simp)
    · split at h
      · exact absurd h (by simp)
      · next tr htr =>
        split at h
        · obtain ⟨rfl, -⟩ : e = [] ∧ b = false := by simpa [eq_comm] using h
          simp at hx
        · split at h
          · obtain ⟨rfl, -⟩ : e = [] ∧ b = false := by simpa [eq_comm] using h
            simp at hx
          · split at h
            · obtain ⟨rfl, -⟩ : e = [] ∧ b = true := by simpa [eq_comm] using h
              simp at hx
            · next hvb =>
              obtain ⟨rfl, -⟩ : e = codonEvents (pyUpper f.extract) tr ∧ b = true := by
                simpa [eq_comm] using h
              obtain ⟨h1, h2⟩ :=
                codonEvents_codon_shape (pyUpper f.extract) tr (not_not.mp hvb) x hx
              exact ⟨h1, h2, codonEvents_stop_star (pyUpper f.extract) tr x hx⟩
  · rw [if_neg hty] at h
    obtain ⟨rfl, -⟩ : e = [] ∧ b = false := by simpa [eq_comm] using h
    simp at hx

theorem featuresEvents_events_shape : ∀ fs evs, featuresEvents fs = some evs →
    ∀ x ∈ evs, x.1.length = 3 ∧ (∀ c ∈ x.1.data, c ∈ VALID_BASES) ∧
      (x.2.2 = "STOP" → x.2.1 = "*") := by
  intro fs
  induction fs with
  | nil =>
    intro evs h x hx
    obtain rfl : ([] : List CodonKey) = evs := by simpa [featuresEvents] using h
    simp at hx
  | cons f fs ih =>
    intro evs h x hx
    rw [featuresEvents_cons, Option.bind_eq_some] at h
    obtain ⟨⟨e, b⟩, hpf, h⟩ := h
    rw [Option.bind_eq_some] at h
    obtain ⟨rest, hfs, h⟩ := h
    obtain rfl : e ++ rest = evs := by simpa using h
    rcases List.mem_append.mp hx with hx2 | hx2
    · exact processFeature_events_shape f e b hpf x hx2
    · exact ih rest hfs x hx2

theorem allEvents_events_shape : ∀ rs evs, allEvents rs = some evs →
    ∀ x ∈ evs, x.1.length = 3 ∧ (∀ c ∈ x.1.data, c ∈ VALID_BASES) ∧
      (x.2.2 = "STOP" → x.2.1 = "*") := by
  intro rs
  induction rs with
  | nil =>
    intro evs h x hx
    obtain rfl : ([] : List CodonKey) = evs := by simpa [allEvents] using h
    simp at hx
  | cons r rs ih =>
    intro evs h x hx
    unfold allEvents at h
    rw [Option.bind_eq_some] at h
    obtain ⟨e, hfe, h⟩ := h
    rw [Option.bind_eq_some] at h
    obtain ⟨rest, hrs, h⟩ := h
    obtain rfl : e ++ rest = evs := by simpa using h
    rcases List.mem_append.mp hx with hx2 | hx2
    · exact featuresEvents_events_shape r.features e hfe x hx2
    · exact ih rest hrs x hx2

/-- C9: every counted CodonEvent has a 3-character codon made only of A/T/C/G
and shows `*` whenever its role is STOP; within one CDS the role is START only
at codon position 0 and STOP only at positions at or beyond the translation
length. -/
theorem C9_event_invariants :
    (∀ (recs : List SeqRecord) (evs : List CodonKey), allEvents recs = some evs →
      ∀ x ∈ evs, x.1.length = 3 ∧ (∀ c ∈ x.1.data, c ∈ VALID_BASES) ∧
        (x.2.2 = "STOP" → x.2.1 = "*")) ∧
    (∀ (s t : String) (j : ℕ) (hj : j < (codonEvents s t).length),
      ((codonEvents s t)[j].2.2 = "START" → j = 0) ∧
      ((codonEvents s t)[j].2.2 = "STOP" → t.length ≤ j)) := by
  constructor
  · exact allEvents_events_shape
  · intro s t j hj
    have hget : (codonEvents s t)[j] =
        if j < t.length then
          (pySlice s (3 * j) (3 * j + 3), pyIndex t j, if 3 * j = 0 then "START" else "")
        else (pySlice s (3 * j) (3 * j + 3), "*", "STOP") := by
      simp [codonEvents]
    rw [hget]
    by_cases hji : j < t.length
    · rw [if_pos hji]
      constructor
      · intro hstart
        by_cases hj0 : 3 * j = 0
        · omega
        · rw [if_neg hj0] at hstart
          simp at hstart
      · intro hstop
        by_cases hj0 : 3 * j = 0
        · rw [if_pos hj0] at hstop
          simp at hstop
        · rw [if_neg hj0] at hstop
          simp at hstop
    · rw [if_neg hji]
      refine ⟨fun hstart => ?_, fun _ => Nat.not_lt.mp hji⟩
      simp at hstart

/-- C9 witness: the demo events satisfy the shape invariant, and in a CDS with
a 2-character translation the codon at position 2 is the STOP codon. -/
theorem C9_event_invariants_witness :
    (∀ x ∈ [(("ATG", "M", "START") : CodonKey), ("GCT", "G", ""), ("GGT", "G", "")],
      x.1.length = 3 ∧ (∀ c ∈ x.1.data, c ∈ VALID_BASES) ∧
        (x.2.2 = "STOP" → x.2.1 = "*")) ∧
    ("MG" : String).length ≤ 2 := by
  constructor
  · exact C9_event_invariants.1 demoRecords _ demoEvents_eq
  · exact (C9_event_invariants.2 "ATGGCTGGT" "MG" 2 (by decide)).2 (by decide)

theorem rowKey_mkRow (evs : List CodonKey) (k : CodonKey)
    (hstop : k.2.2 = "STOP" → k.2.1 = "*") :
    rowKey (mkRow (totalCodons evs) (k, evs.count k)) = k := by
  obtain ⟨k1, k2, k3⟩ := k
  simp only [rowKey, mkRow]
  by_cases hs : k3 = "STOP" ∨ k2 = "*"
  · rw [if_pos hs]
    rcases hs with hs | hs
    · have h2 : k2 = "*" := hstop hs
      rw [h2]
    · rw [hs]
  · rw [if_neg hs]

/-- The full table is sorted ascending by (codon, amino acid, role), provided
every STOP event already shows `*` (true of all aggregated events). -/
theorem reportRows_sorted (evs : List CodonKey)
    (hstop : ∀ x ∈ evs, x.2.2 = "STOP" → x.2.1 = "*") :
    (reportRows evs).Pairwise fun r1 r2 => keyLe (rowKey r1) (rowKey r2) := by
  have hsorted : (evs.dedup.insertionSort keyLe).Pairwise keyLe :=
    List.sorted_insertionSort keyLe evs.dedup
  simp only [reportRows, sortedItems]
  rw [List.pairwise_map, List.pairwise_map]
  refine hsorted.imp_of_mem fun {a b} ha hb hab => ?_
  have ha2 : a ∈ evs :=
    List.mem_dedup.mp ((List.perm_insertionSort keyLe evs.dedup).mem_iff.mp ha)
  have hb2 : b ∈ evs :=
    List.mem_dedup.mp ((List.perm_insertionSort keyLe evs.dedup).mem_iff.mp hb)
  rw [rowKey_mkRow evs a (hstop a ha2), rowKey_mkRow evs b (hstop b hb2)]
  exact hab

/-- C7: every produced report, filtered or not, is sorted ascending in the
lexicographic order on the displayed (codon, amino acid, role) triple. -/
theorem C7_report_sorted (source : Option (List SeqRecord)) (t : ℚ)
    (rows : List ReportRow)
    (h : calculate_codon_frequency_to_df source t = some rows) :
    rows.Pairwise fun r1 r2 => keyLe (rowKey r1) (rowKey r2) := by
  obtain ⟨recs, evs, -, hae, -, rfl⟩ := calculate_eq_some h
  have hstop := fun x hx => (allEvents_events_shape recs evs hae x hx).2.2
  have hrows := reportRows_sorted evs hstop
  unfold applyFreqFilter
  by_cases ht : t > 0
  · rw [if_pos ht]
    exact List.Sorted.filter _ hrows
  · rw [if_neg ht]
    exact hrows

/-- C7 witness: the demo report is sorted by its (codon, amino acid, role)
triple. -/
theorem C7_report_sorted_witness :
    demoRows.Pairwise fun r1 r2 => keyLe (rowKey r1) (rowKey r2) :=
  C7_report_sorted (some demoRecords) 0 demoRows demoReport_eq

/-- C8: with a positive threshold exactly the rows whose frequency reaches the
threshold are retained, the result stays present (possibly an empty table,
never `None`), and when no override is requested the threshold used is the
named constant `DEFAULT_MIN_FREQ`, whose value is 0.05 percentage points. -/
theorem C8_threshold_filtering :
    DEFAULT_MIN_FREQ = 5 / 100 ∧
    (∀ source, run_codon_analysis source false =
      calculate_codon_frequency_to_df source DEFAULT_MIN_FREQ) ∧
    (∀ (source : Option (List SeqRecord)) (t : ℚ) (rows0 : List ReportRow),
      0 < t →
      calculate_codon_frequency_to_df source 0 = some rows0 →
      calculate_codon_frequency_to_df source t =
        some (rows0.filter fun r => decide (t ≤ r.freqPercent))) := by
  refine ⟨rfl, fun source => rfl, fun source t rows0 ht h => ?_⟩
  obtain ⟨recs, evs, rfl, hae, hn0, rfl⟩ := calculate_eq_some h
  have hne := reportRows_ne_nil hn0
  have h0f : applyFreqFilter 0 (reportRows evs) = reportRows evs := by
    unfold applyFreqFilter
    rw [if_neg (by norm_num)]
  rw [h0f]
  simp only [calculate_codon_frequency_to_df, hae]
  rw [if_neg hn0, if_neg hne]
  unfold applyFreqFilter
  rw [if_pos ht]

/-- C8 witness: at threshold 50 every demo row (frequency 100/3) is filtered
out and yet the result is a present, empty report. -/
theorem C8_threshold_filtering_witness :
    (0 : ℚ) < 50 ∧
    calculate_codon_frequency_to_df (some demoRecords) 50 =
      some (demoRows.filter fun r => decide ((50 : ℚ) ≤ r.freqPercent)) ∧
    calculate_codon_frequency_to_df (some demoRecords) 50 = some [] :=
  ⟨by norm_num,
   C8_threshold_filtering.2.2 (some demoRecords) 50 demoRows (by norm_num) demoReport_eq,
   demoReportFiltered_eq⟩

end GeneTicker
